import Mathlib

/-
Formal model of the ledger-and-categorization engine of the finance_app
package (finance_app/models/models.py, finance_app/services/posting_generator.py,
finance_app/services/rules_engine.py, finance_app/services/importer.py).

The SQLAlchemy store is modelled as an explicit `State` record holding the
rows of each table as Lean lists, in insertion order.  Monetary values
(`Numeric(14, 2)` columns and Python floats derived from them) are modelled
as rationals.  Autoincrement primary keys that the services allocate are
modelled by explicit counters in the state.  A Python exception escaping a
service call is modelled by `Except.error`; since every mutating service
runs as one unit of work that rolls back on failure, an `Except.error`
result carries no successor state.
-/

deriving instance DecidableEq for Except

namespace FinanceApp

/-- Calendar date (year, month, day), as a Python `datetime.date`. -/
structure Date where
  year : Nat
  month : Nat
  day : Nat
  deriving DecidableEq, Repr

/-- Comparison of dates, as Python compares `datetime.date` values
(lexicographic on year, month, day). -/
def Date.le (a b : Date) : Bool :=
  a.year < b.year ||
    (a.year == b.year && (a.month < b.month ||
      (a.month == b.month && a.day ≤ b.day)))

/-- A row of the `accounts` table (models.Account). -/
structure Account where
  id : Nat
  name : String
  type : String
  deriving DecidableEq, Repr

/-- A row of the `categories` table (models.Category). -/
structure Category where
  id : Nat
  name : String
  parent_id : Option Nat
  deriving DecidableEq, Repr

/-- A row of the `transactions` table (models.Transaction). -/
structure Transaction where
  id : Nat
  date : Date
  description : String
  amount : Rat
  source_account_id : Nat
  normalized_memo : Option String
  category_id : Option Nat
  deriving DecidableEq, Repr

/-- A row of the `postings` table (models.Posting).  The surrogate primary
key plays no role in any service (postings are addressed by
`transaction_id`), so it is not modelled. -/
structure Posting where
  transaction_id : Nat
  account_id : Nat
  debit : Rat
  credit : Rat
  deriving DecidableEq, Repr

/-- A row of the `rules` table (models.Rule). -/
structure Rule where
  id : Nat
  pattern : String
  category_id : Nat
  amount_min : Option Rat
  amount_max : Option Rat
  priority : Int
  active : Bool
  deriving DecidableEq, Repr

/-- The ledger store: one list per table, in insertion order, plus the
autoincrement counters for the ids the services allocate. -/
structure State where
  accounts : List Account
  categories : List Category
  transactions : List Transaction
  postings : List Posting
  rules : List Rule
  nextAccountId : Nat
  nextTransactionId : Nat
  deriving DecidableEq, Repr

/-- Python's `abs` on a rational amount. -/
def ratAbs (q : Rat) : Rat := if q < 0 then -q else q

/-- The postings of one transaction:
`session.query(Posting).filter(Posting.transaction_id == tid)`. -/
def postingsFor (s : State) (tid : Nat) : List Posting :=
  s.postings.filter (fun p => p.transaction_id == tid)

/-- Total debit over a transaction's postings. -/
def sumDebits (s : State) (tid : Nat) : Rat :=
  ((postingsFor s tid).map Posting.debit).sum

/-- Total credit over a transaction's postings. -/
def sumCredits (s : State) (tid : Nat) : Rat :=
  ((postingsFor s tid).map Posting.credit).sum

/-- `session.query(Account).filter_by(name=name).first()`. -/
def findAccountByName (accounts : List Account) (name : String) : Option Account :=
  accounts.find? (fun a => a.name == name)

/-- Counterpart-account resolution of `generate_postings_for_transaction`
(posting_generator.py lines 64-76 for the expense branch, 95-107 for the
income branch).  With a category set, the category row is loaded
(`session.get`; a dangling id makes the subsequent `category.name` raise)
and the account named `role ++ ":" ++ category.name` is used, lazily
created with a fresh id when absent.  Without a category, the seeded
`fallback` account is used; when it is missing, the subsequent
`.id` access on `None` raises.  Returns the chosen account together with
the updated account list and id counter. -/
def getCounterpart (categories : List Category) (accounts : List Account)
    (nextId : Nat) (catId : Option Nat) (role fallback ty : String) :
    Except String (Account × List Account × Nat) :=
  match catId with
  | some cid =>
    match categories.find? (fun c => c.id == cid) with
    | none => .error "category not found"
    | some cat =>
      match findAccountByName accounts (role ++ ":" ++ cat.name) with
      | some a => .ok (a, accounts, nextId)
      | none =>
        .ok (⟨nextId, role ++ ":" ++ cat.name, ty⟩,
              accounts ++ [⟨nextId, role ++ ":" ++ cat.name, ty⟩], nextId + 1)
  | none =>
    match findAccountByName accounts fallback with
    | some a => .ok (a, accounts, nextId)
    | none => .error ("missing fallback account " ++ fallback)

/-- posting_generator.generate_postings_for_transaction.  Deletes the
transaction's existing postings, then appends the two fresh ones: for
`amount < 0` credit the source account and debit the expense counterpart by
`abs(amount)` (lines 62-92); otherwise debit the source account and credit
the income counterpart (lines 93-123).  Returns 2, the number of postings
created. -/
def generate_postings_for_transaction (s : State) (t : Transaction) :
    Except String (Nat × State) :=
  let remaining := s.postings.filter (fun p => p.transaction_id != t.id)
  if t.amount < 0 then
    match getCounterpart s.categories s.accounts s.nextAccountId
        t.category_id "Expense" "Expenses" "expense" with
    | .error e => .error e
    | .ok (acct, accounts2, nextId2) =>
      let s' : State :=
        { s with accounts := accounts2, nextAccountId := nextId2,
                 postings := remaining ++
                   [⟨t.id, t.source_account_id, 0, ratAbs t.amount⟩,
                    ⟨t.id, acct.id, ratAbs t.amount, 0⟩] }
      .ok (2, s')
  else
    match getCounterpart s.categories s.accounts s.nextAccountId
        t.category_id "Income" "Income" "income" with
    | .error e => .error e
    | .ok (acct, accounts2, nextId2) =>
      let s' : State :=
        { s with accounts := accounts2, nextAccountId := nextId2,
                 postings := remaining ++
                   [⟨t.id, t.source_account_id, ratAbs t.amount, 0⟩,
                    ⟨t.id, acct.id, 0, ratAbs t.amount⟩] }
      .ok (2, s')

/-- The transactions with no postings, in insertion order: the
`outerjoin(...).filter(Posting.id.is_(None))` query of
generate_all_postings (posting_generator.py lines 154-160). -/
def unposted (s : State) : List Transaction :=
  s.transactions.filter (fun t => !(s.postings.any (fun p => p.transaction_id == t.id)))

/-- The per-transaction loop of generate_all_postings (lines 163-165). -/
def genAllLoop : List Transaction → Nat × State → Except String (Nat × State)
  | [], acc => .ok acc
  | t :: rest, (count, s) =>
    match generate_postings_for_transaction s t with
    | .error e => .error e
    | .ok (_, s') => genAllLoop rest (count + 1, s')

/-- posting_generator.generate_all_postings: generate postings for the
first `limit` transactions that have none, returning how many were
processed. -/
def generate_all_postings (s : State) (limit : Nat) : Except String (Nat × State) :=
  genAllLoop ((unposted s).take limit) (0, s)

/-! ### Regular expressions

rules_engine._rule_matches evaluates `re.search(rule.pattern, description,
flags=re.IGNORECASE)`.  The fragment of Python regex syntax modelled here:
literal characters, `.`, alternation `|`, grouping `(...)`, the quantifiers
`*`, `+`, `?`, character classes `[...]` with ranges and negation, and the
escapes `\d`, `\w`, `\s` plus escaped punctuation.  Malformed patterns
(unterminated classes or groups, unbalanced parentheses, dangling
quantifiers, bad escapes, bad ranges) are parse errors, modelling
`re.error`.  Matching is by Brzozowski derivatives, which decides the same
boolean match as Python's backtracking engine on this fragment. -/

/-- One member of a character class: a single character or a range. -/
inductive ClsItem where
  | single (c : Char)
  | range (lo hi : Char)
  deriving DecidableEq, Repr

/-- Abstract syntax of the modelled regex fragment. -/
inductive Regex where
  | epsilon
  | chr (c : Char)
  | anyChar
  | cls (neg : Bool) (items : List ClsItem)
  | cat (a b : Regex)
  | alt (a b : Regex)
  | star (a : Regex)
  deriving DecidableEq, Repr

/-- Does a class item cover the character? -/
def matchesChar (it : ClsItem) (c : Char) : Bool :=
  match it with
  | .single d => c == d
  | .range lo hi => lo ≤ c && c ≤ hi

/-- Does a (possibly negated) class match the character? -/
def clsMatches (neg : Bool) (items : List ClsItem) (c : Char) : Bool :=
  if neg then !(items.any (fun it => matchesChar it c))
  else items.any (fun it => matchesChar it c)

/-- Class items for the escape `\d`. -/
def digitItems : List ClsItem := [.range '0' '9']

/-- Class items for the escape `\w`. -/
def wordItems : List ClsItem :=
  [.range 'a' 'z', .range 'A' 'Z', .range '0' '9', .single '_']

/-- Class items for the escape `\s`. -/
def spaceItems : List ClsItem :=
  [.single ' ', .single '\t', .single '\n', .single '\x0b', .single '\x0c', .single '\r']

/-- Parse the items of a character class, after `[` and the optional `^`.
`first` is true before any item has been read: there a `]` is a literal
member (as in Python), afterwards it closes the class. -/
def parseClsItems : Nat → Bool → List Char → Except String (List ClsItem × List Char)
  | 0, _, _ => .error "pattern too deeply nested"
  | _ + 1, _, [] => .error "unterminated character set"
  | fuel + 1, first, ']' :: rest =>
    if first then do
      let (items, cs) ← parseClsItems fuel false rest
      .ok (.single ']' :: items, cs)
    else .ok ([], ']' :: rest)
  | fuel + 1, _, '\\' :: c :: rest =>
    let items :=
      if c == 'd' then digitItems
      else if c == 'w' then wordItems
      else if c == 's' then spaceItems
      else [.single c]
    do
      let (more, cs) ← parseClsItems fuel false rest
      .ok (items ++ more, cs)
  | _ + 1, _, ['\\'] => .error "bad escape (end of pattern)"
  | fuel + 1, _, c :: '-' :: d :: rest =>
    if d == ']' then do
      let (items, cs) ← parseClsItems fuel false ('-' :: d :: rest)
      .ok (.single c :: items, cs)
    else if c ≤ d then do
      let (items, cs) ← parseClsItems fuel false rest
      .ok (.range c d :: items, cs)
    else .error "bad character range"
  | fuel + 1, _, c :: rest => do
    let (items, cs) ← parseClsItems fuel false rest
    .ok (.single c :: items, cs)

/-- Close a character class: consume the final `]`.  -/
def parseCls (fuel : Nat) (neg : Bool) (cs : List Char) :
    Except String (Regex × List Char) := do
  let (items, cs₁) ← parseClsItems fuel true cs
  match cs₁ with
  | ']' :: rest => .ok (.cls neg items, rest)
  | _ => .error "unterminated character set"

mutual

/-- Alternation level of the pattern grammar: `seq ('|' alt)?`. -/
def parseAlt : Nat → List Char → Except String (Regex × List Char)
  | 0, _ => .error "pattern too deeply nested"
  | fuel + 1, cs => do
    let (r, cs₁) ← parseSeq fuel cs
    match cs₁ with
    | '|' :: rest => do
      let (r₂, cs₂) ← parseAlt fuel rest
      .ok (.alt r r₂, cs₂)
    | _ => .ok (r, cs₁)

/-- Concatenation level: a run of quantified atoms, ending at `)`/`|`/end. -/
def parseSeq : Nat → List Char → Except String (Regex × List Char)
  | 0, _ => .error "pattern too deeply nested"
  | fuel + 1, cs =>
    match cs with
    | [] => .ok (.epsilon, [])
    | ')' :: _ => .ok (.epsilon, cs)
    | '|' :: _ => .ok (.epsilon, cs)
    | _ => do
      let (r, cs₁) ← parseQuant fuel cs
      let (r₂, cs₂) ← parseSeq fuel cs₁
      .ok (.cat r r₂, cs₂)

/-- One atom with an optional `*`, `+` or `?` quantifier. -/
def parseQuant : Nat → List Char → Except String (Regex × List Char)
  | 0, _ => .error "pattern too deeply nested"
  | fuel + 1, cs => do
    let (r, cs₁) ← parseAtom fuel cs
    match cs₁ with
    | '*' :: rest => .ok (.star r, rest)
    | '+' :: rest => .ok (.cat r (.star r), rest)
    | '?' :: rest => .ok (.alt r .epsilon, rest)
    | _ => .ok (r, cs₁)

/-- A single atom: group, class, wildcard, escape or literal. -/
def parseAtom : Nat → List Char → Except String (Regex × List Char)
  | 0, _ => .error "pattern too deeply nested"
  | fuel + 1, cs =>
    match cs with
    | [] => .error "unexpected end of pattern"
    | '(' :: rest => do
      let (r, cs₁) ← parseAlt fuel rest
      match cs₁ with
      | ')' :: cs₂ => .ok (r, cs₂)
      | _ => .error "missing ), unterminated subpattern"
    | ')' :: _ => .error "unbalanced parenthesis"
    | '*' :: _ => .error "nothing to repeat"
    | '+' :: _ => .error "nothing to repeat"
    | '?' :: _ => .error "nothing to repeat"
    | '[' :: '^' :: rest => parseCls fuel true rest
    | '[' :: rest => parseCls fuel false rest
    | '.' :: rest => .ok (.anyChar, rest)
    | ['\\'] => .error "bad escape (end of pattern)"
    | '\\' :: c :: rest =>
      if c == 'd' then .ok (.cls false digitItems, rest)
      else if c == 'w' then .ok (.cls false wordItems, rest)
      else if c == 's' then .ok (.cls false spaceItems, rest)
      else if c.isAlpha || c.isDigit then .error "bad escape"
      else .ok (.chr c, rest)
    | c :: rest => .ok (.chr c, rest)

end

/-- Does the regex accept the empty string? -/
def Regex.nullable : Regex → Bool
  | .epsilon => true
  | .chr _ => false
  | .anyChar => false
  | .cls _ _ => false
  | .cat a b => a.nullable && b.nullable
  | .alt a b => a.nullable || b.nullable
  | .star _ => true

/-- Brzozowski derivative of the regex with respect to one character. -/
def Regex.deriv : Regex → Char → Regex
  | .epsilon, _ => .cls false []
  | .chr d, c => if c == d then .epsilon else .cls false []
  | .anyChar, _ => .epsilon
  | .cls neg items, c => if clsMatches neg items c then .epsilon else .cls false []
  | .cat a b, c =>
    if a.nullable then .alt (.cat (a.deriv c) b) (b.deriv c) else .cat (a.deriv c) b
  | .alt a b, c => .alt (a.deriv c) (b.deriv c)
  | .star a, c => .cat (a.deriv c) (.star a)

/-- Does the regex match some front segment of the character list? -/
def matchesSomeFront (r : Regex) : List Char → Bool
  | [] => r.nullable
  | c :: rest => r.nullable || matchesSomeFront (r.deriv c) rest

/-- Does the regex match somewhere in the character list (`re.search`)? -/
def searchFrom (r : Regex) : List Char → Bool
  | [] => r.nullable
  | c :: rest => matchesSomeFront r (c :: rest) || searchFrom r rest

/-- Compile a pattern string, modelling `re.compile`: parse errors are
`re.error`. -/
def compileRe (pattern : String) : Except String Regex :=
  match parseAlt (8 * pattern.length + 16) pattern.data with
  | .error e => .error e
  | .ok (r, []) => .ok r
  | .ok (_, _) => .error "unbalanced parenthesis"

/-- `re.search(pattern, text, flags=re.IGNORECASE) is not None`.
Case-insensitivity is modelled by lowercasing both pattern and text. -/
def reSearchCI (pattern text : String) : Except String Bool :=
  match compileRe (String.mk (pattern.data.map Char.toLower)) with
  | .error e => .error e
  | .ok r => .ok (searchFrom r (text.data.map Char.toLower))

/-- The two postings `generate_postings_for_transaction` appends for `t`,
given the chosen counterpart account id: credit-source / debit-expense for
a negative amount, debit-source / credit-income otherwise. -/
def genPair (t : Transaction) (aid : Nat) : List Posting :=
  if t.amount < 0 then
    [⟨t.id, t.source_account_id, 0, ratAbs t.amount⟩, ⟨t.id, aid, ratAbs t.amount, 0⟩]
  else
    [⟨t.id, t.source_account_id, ratAbs t.amount, 0⟩, ⟨t.id, aid, 0, ratAbs t.amount⟩]

/-- The per-posting shape required by the data model: exactly one of debit
and credit non-zero. -/
def exactlyOneSide (p : Posting) : Bool := (p.debit != 0) != (p.credit != 0)

/-! ### Concrete fixtures, used to evaluate the theorems on closed inputs -/

def accChecking : Account := ⟨1, "Checking", "asset"⟩

def accExpenses : Account := ⟨2, "Expenses", "expense"⟩

def accIncome : Account := ⟨3, "Income", "income"⟩

def d0305 : Date := ⟨2024, 3, 5⟩

def txnGroceries : Transaction := ⟨1, d0305, "WALMART #123", -(42 : Rat), 1, none, none⟩

def sBase : State := ⟨[accChecking, accExpenses, accIncome], [], [txnGroceries], [], [], 4, 2⟩

def sBasePosted : State :=
  { sBase with postings := [⟨1, 1, 0, (42 : Rat)⟩, ⟨1, 2, (42 : Rat), 0⟩] }

def txnZero : Transaction := ⟨1, d0305, "zero amount row", 0, 1, none, none⟩

def sZero : State := ⟨[accChecking, accExpenses, accIncome], [], [txnZero], [], [], 4, 2⟩

def sZeroPosted : State := { sZero with postings := [⟨1, 1, 0, 0⟩, ⟨1, 3, 0, 0⟩] }

def catGroceries : Category := ⟨1, "Groceries", none⟩

def ruleFuel : Rule := ⟨3, "fuel", 3, none, none, 5, true⟩

def ruleWalmart : Rule := ⟨1, "walmart", 1, none, none, 10, true⟩

def ruleMart : Rule := ⟨2, "mart", 2, none, none, 20, true⟩

def rulesFixture : List Rule := [ruleWalmart, ruleMart, ruleFuel]

def ruleBadPattern : Rule := ⟨9, "[", 1, none, none, 1, true⟩

def txnUncat : Transaction := ⟨1, d0305, "SOME SHOP", -(5 : Rat), 1, none, none⟩

def sBadRule : State :=
  ⟨[accChecking, accExpenses, accIncome], [catGroceries], [txnUncat], [], [ruleBadPattern], 4, 2⟩


/-! ### Rules engine (rules_engine.py) -/

/-- rules_engine.RuleMatch: one dry-run result row. -/
structure RuleMatch where
  transaction_id : Nat
  rule_id : Nat
  category_id : Nat
  deriving DecidableEq, Repr

/-- rules_engine._rule_matches (lines 49-85): the rule must be active, the
pattern must match somewhere in the description case-insensitively, and the
amount must clear `amount_min` / `amount_max` when they are set.  A regex
error raised by `re.search` propagates. -/
def _rule_matches (rule : Rule) (description : String) (amount : Rat) :
    Except String Bool :=
  if !rule.active then .ok false
  else
    match reSearchCI rule.pattern description with
    | .error e => .error e
    | .ok false => .ok false
    | .ok true =>
      if (match rule.amount_min with
          | some m => decide (amount < m)
          | none => false) then .ok false
      else if (match rule.amount_max with
          | some mx => decide (mx < amount)
          | none => false) then .ok false
      else .ok true

/-- Active rules in ascending priority order:
`query(Rule).filter(Rule.active.is_(True)).order_by(Rule.priority.asc())`
(rules_engine.py lines 118 and 157).  SQL leaves the order of equal
priorities unspecified; any priority-consistent sort models it. -/
def activeSorted (rules : List Rule) : List Rule :=
  (rules.filter (fun r => r.active)).insertionSort
    (fun r₁ r₂ => r₁.priority ≤ r₂.priority)

/-- The inner `for rule in rules` loop shared by both entry points: the
first rule that matches wins, later rules are not consulted. -/
def firstMatch (rules : List Rule) (description : String) (amount : Rat) :
    Except String (Option Rule) :=
  match rules with
  | [] => .ok none
  | r :: rest =>
    match _rule_matches r description amount with
    | .error e => .error e
    | .ok true => .ok (some r)
    | .ok false => firstMatch rest description amount

/-- The uncategorized transactions:
`query(Transaction).filter(Transaction.category_id.is_(None))`. -/
def uncategorized (s : State) : List Transaction :=
  s.transactions.filter (fun t => t.category_id == none)

/-- The transaction snapshot of dry_run_matches (lines 109-115):
uncategorized, most recent date first, first `limit` rows. -/
def dryRunSelect (s : State) (limit : Nat) : List Transaction :=
  ((uncategorized s).insertionSort (fun t u => Date.le u.date t.date = true)).take limit

/-- The per-transaction loop of dry_run_matches (lines 121-130). -/
def dryRunLoop (rules : List Rule) : List Transaction → Except String (List RuleMatch)
  | [] => .ok []
  | t :: rest =>
    match firstMatch rules t.description t.amount with
    | .error e => .error e
    | .ok (some r) =>
      match dryRunLoop rules rest with
      | .error e => .error e
      | .ok ms => .ok (⟨t.id, r.id, r.category_id⟩ :: ms)
    | .ok none => dryRunLoop rules rest

/-- rules_engine.dry_run_matches: report, without mutating the store, which
rule and category each uncategorized transaction (within the limit) would
receive. -/
def dry_run_matches (s : State) (limit : Nat) : Except String (List RuleMatch) :=
  dryRunLoop (activeSorted s.rules) (dryRunSelect s limit)

/-- Assignment `txn.category_id = rule.category_id` on the stored
transaction list, addressing the transaction by id. -/
def setCategory (txs : List Transaction) (tid cid : Nat) : List Transaction :=
  txs.map (fun u => if u.id == tid then { u with category_id := some cid } else u)

/-- The transaction snapshot of apply_rules (line 160): uncategorized, in
ascending date order; `yield_per` batching does not change the row set. -/
def applySelect (s : State) : List Transaction :=
  (uncategorized s).insertionSort (fun t u => Date.le t.date u.date = true)

/-- The per-transaction loop of apply_rules (lines 163-170), threading the
update count and the stored transaction list. -/
def applyLoop (rules : List Rule) :
    List Transaction → Nat → List Transaction → Except String (Nat × List Transaction)
  | [], updated, txs => .ok (updated, txs)
  | t :: rest, updated, txs =>
    match firstMatch rules t.description t.amount with
    | .error e => .error e
    | .ok (some r) => applyLoop rules rest (updated + 1) (setCategory txs t.id r.category_id)
    | .ok none => applyLoop rules rest updated txs

/-- rules_engine.apply_rules: persist the first matching rule's category on
every uncategorized transaction, returning how many were categorized. -/
def apply_rules (s : State) : Except String (Nat × State) :=
  match applyLoop (activeSorted s.rules) (applySelect s) 0 s.transactions with
  | .error e => .error e
  | .ok (updated, txs) => .ok (updated, { s with transactions := txs })

/-! ### Import adapter (importer.py) -/

/-- One tabular row, already projected through the ImportMapping onto the
three referenced columns (the adapter only ever reads
`row[mapping.date_col]`, `row[mapping.description_col]` and
`row[mapping.amount_col]`; other columns are ignored). -/
structure Row where
  dateField : String
  descriptionField : String
  amountField : String
  deriving DecidableEq, Repr

/-- Numeric value of a digit string. -/
def digitsToNat (cs : List Char) : Nat :=
  cs.foldl (fun n c => n * 10 + (c.toNat - 48)) 0

/-- Gregorian leap year, as `datetime` computes it. -/
def isLeapYear (y : Nat) : Bool := (y % 4 == 0 && y % 100 != 0) || y % 400 == 0

/-- Days in a month, as `datetime` computes it. -/
def daysInMonth (y m : Nat) : Nat :=
  if m == 2 then (if isLeapYear y then 29 else 28)
  else if m == 4 || m == 6 || m == 9 || m == 11 then 30
  else 31

/-- `datetime.date(y, m, d)` construction: validates ranges (year 1-9999)
and the day against the month length. -/
def mkDateChecked (y m d : Nat) : Option Date :=
  if 1 ≤ y && y ≤ 9999 && 1 ≤ m && m ≤ 12 && 1 ≤ d && d ≤ daysInMonth y m then
    some ⟨y, m, d⟩
  else none

/-- strptime `%Y`: exactly four digits. -/
def parseYear4 : List Char → Option (Nat × List Char)
  | a :: b :: c :: d :: rest =>
    if a.isDigit && b.isDigit && c.isDigit && d.isDigit then
      some (digitsToNat [a, b, c, d], rest)
    else none
  | _ => none

/-- strptime `%m`: one or two digits forming 1-12, longest first. -/
def parseMonth : List Char → Option (Nat × List Char)
  | '1' :: c :: rest =>
    if '0' ≤ c && c ≤ '2' then some (10 + (c.toNat - 48), rest) else some (1, c :: rest)
  | '0' :: c :: rest =>
    if '1' ≤ c && c ≤ '9' then some (c.toNat - 48, rest) else none
  | c :: rest =>
    if '1' ≤ c && c ≤ '9' then some (c.toNat - 48, rest) else none
  | [] => none

/-- strptime `%d`: one or two digits forming 1-31, longest first. -/
def parseDay : List Char → Option (Nat × List Char)
  | '3' :: c :: rest =>
    if c == '0' || c == '1' then some (30 + (c.toNat - 48), rest) else some (3, c :: rest)
  | c₁ :: c₂ :: rest =>
    if (c₁ == '1' || c₁ == '2') && c₂.isDigit then
      some ((c₁.toNat - 48) * 10 + (c₂.toNat - 48), rest)
    else if c₁ == '0' then
      (if '1' ≤ c₂ && c₂ ≤ '9' then some (c₂.toNat - 48, rest) else none)
    else if '1' ≤ c₁ && c₁ ≤ '9' then some (c₁.toNat - 48, c₂ :: rest)
    else none
  | [c] => if '1' ≤ c && c ≤ '9' then some (c.toNat - 48, []) else none
  | [] => none

/-- `datetime.strptime(value, "%Y-%m-%d").date()`: the whole string must be
consumed. -/
def parseISO (cs : List Char) : Option Date := do
  let (y, cs₁) ← parseYear4 cs
  match cs₁ with
  | '-' :: cs₂ => do
    let (m, cs₃) ← parseMonth cs₂
    match cs₃ with
    | '-' :: cs₄ => do
      let (d, cs₅) ← parseDay cs₄
      match cs₅ with
      | [] => mkDateChecked y m d
      | _ => none
    | _ => none
  | _ => none

/-- `datetime.strptime(value, "%m/%d/%Y").date()`. -/
def parseUS (cs : List Char) : Option Date := do
  let (m, cs₁) ← parseMonth cs
  match cs₁ with
  | '/' :: cs₂ => do
    let (d, cs₃) ← parseDay cs₂
    match cs₃ with
    | '/' :: cs₄ => do
      let (y, cs₅) ← parseYear4 cs₄
      match cs₅ with
      | [] => mkDateChecked y m d
      | _ => none
    | _ => none
  | _ => none

/-- Python `str.strip()`: drop whitespace from both ends. -/
def stripValue (cs : List Char) : List Char :=
  ((cs.dropWhile Char.isWhitespace).reverse.dropWhile Char.isWhitespace).reverse

/-- importer.parse_date: strip the value, try `%Y-%m-%d` first, then
`%m/%d/%Y`; `none` models the ValueError raised when neither matches. -/
def parse_date (value : String) : Option Date :=
  match parseISO (stripValue value.data) with
  | some d => some d
  | none => parseUS (stripValue value.data)

/-- Python `float(value)` on the fragment of literals bank rows carry:
optional surrounding whitespace, optional sign, digits with an optional
single decimal point and digits on at least one side of it.  Exponents,
infinities and NaN are outside the modelled fragment.  `none` models the
ValueError raised on malformed input. -/
def parseAmount (value : String) : Option Rat :=
  let cs := stripValue value.data
  let (sign, cs₁) : Int × List Char :=
    match cs with
    | '-' :: r => (-1, r)
    | '+' :: r => (1, r)
    | _ => (1, cs)
  let intPart := cs₁.takeWhile Char.isDigit
  let rest₁ := cs₁.dropWhile Char.isDigit
  match rest₁ with
  | [] =>
    if intPart.isEmpty then none
    else some (mkRat (sign * (digitsToNat intPart : Int)) 1)
  | '.' :: fracRest =>
    let fracPart := fracRest.takeWhile Char.isDigit
    let rest₂ := fracRest.dropWhile Char.isDigit
    if rest₂.isEmpty && !(intPart.isEmpty && fracPart.isEmpty) then
      some (mkRat (sign * ((digitsToNat intPart : Int) * (10 : Int) ^ fracPart.length +
        (digitsToNat fracPart : Int))) ((10 : Nat) ^ fracPart.length))
    else none
  | _ => none

/-- The per-row loop of import_transactions (importer.py lines 127-147):
skip the row when the date parses under no supported format; let an amount
parse failure propagate; otherwise append a transaction with a fresh id.
Returns the created count, the new transactions in order, and the advanced
id counter. -/
def importLoop (accountId : Nat) :
    List Row → Nat → Except String (Nat × List Transaction × Nat)
  | [], nextTid => .ok (0, [], nextTid)
  | row :: rest, nextTid =>
    match parse_date row.dateField with
    | none => importLoop accountId rest nextTid
    | some dt =>
      match parseAmount row.amountField with
      | none => .error "could not convert string to float"
      | some amt =>
        match importLoop accountId rest (nextTid + 1) with
        | .error e => .error e
        | .ok (created, txs, nextTid') =>
          .ok (created + 1,
            ⟨nextTid, dt, row.descriptionField, amt, accountId, none, none⟩ :: txs,
            nextTid')

/-- importer.import_transactions over the projected rows: resolve the
source account or create it with type "asset", then run the row loop.  An
error models the exception aborting (and rolling back) the whole unit of
work, so it carries no successor state. -/
def import_transactions (s : State) (rows : List Row) (source_account_name : String) :
    Except String (Nat × State) :=
  match findAccountByName s.accounts source_account_name with
  | some a =>
    match importLoop a.id rows s.nextTransactionId with
    | .error e => .error e
    | .ok (created, txs, nextTid') =>
      .ok (created, { s with transactions := s.transactions ++ txs,
                             nextTransactionId := nextTid' })
  | none =>
    match importLoop s.nextAccountId rows s.nextTransactionId with
    | .error e => .error e
    | .ok (created, txs, nextTid') =>
      .ok (created,
        { s with accounts := s.accounts ++ [⟨s.nextAccountId, source_account_name, "asset"⟩],
                 nextAccountId := s.nextAccountId + 1,
                 transactions := s.transactions ++ txs,
                 nextTransactionId := nextTid' })

def rowA : Row := ⟨"2024-03-05", "SHOP A", "10"⟩

def rowBadDate : Row := ⟨"garbage", "SHOP B", "20"⟩

def rowC : Row := ⟨"03/06/2024", "SHOP C", "-7"⟩

def rowBadAmount : Row := ⟨"2024-03-05", "SHOP D", "abc"⟩

def sRules : State :=
  ⟨[accChecking, accExpenses, accIncome], [catGroceries], [txnGroceries], [],
    rulesFixture, 4, 2⟩

def txnGroceriesCategorized : Transaction := { txnGroceries with category_id := some 1 }

def sRulesApplied : State := { sRules with transactions := [txnGroceriesCategorized] }

/-! ## Lemmas about the posting generator -/

theorem ratAbs_eq_abs (q : Rat) : ratAbs q = |q| := by
  rcases lt_or_le q 0 with h | h
  · rw [ratAbs, if_pos h, abs_of_neg h]
  · rw [ratAbs, if_neg (not_lt.mpr h), abs_of_nonneg h]

theorem ratAbs_nonneg (q : Rat) : 0 ≤ ratAbs q := by
  rw [ratAbs_eq_abs]; exact abs_nonneg q

theorem ratAbs_ne_zero (q : Rat) (h : q ≠ 0) : ratAbs q ≠ 0 := by
  rw [ratAbs_eq_abs]; exact abs_ne_zero.mpr h

theorem genPair_tid (t : Transaction) (aid : Nat) :
    ∀ p ∈ genPair t aid, p.transaction_id = t.id := by
  intro p hp
  unfold genPair at hp
  split at hp <;> simp only [List.mem_cons, List.not_mem_nil, or_false] at hp <;>
    rcases hp with rfl | rfl <;> rfl

theorem filter_ne_filter_eq (l : List Posting) (tid : Nat) :
    (l.filter (fun p => p.transaction_id != tid)).filter
      (fun p => p.transaction_id == tid) = [] := by
  rw [List.filter_filter]
  apply List.filter_eq_nil_iff.mpr
  intro p _
  cases h : p.transaction_id == tid <;> simp [bne, h]

/-- Structural description of a successful `generate_postings_for_transaction`
run: it returns 2, leaves every table except accounts and postings alone, and
replaces the transaction's postings by the two fresh ones.  -/
theorem generate_postings_ok (s : State) (t : Transaction) (n : Nat) (s' : State)
    (h : generate_postings_for_transaction s t = .ok (n, s')) :
    n = 2 ∧ s'.transactions = s.transactions ∧ s'.categories = s.categories ∧
      s'.rules = s.rules ∧ s'.nextTransactionId = s.nextTransactionId ∧
      ∃ aid, s'.postings =
        s.postings.filter (fun p => p.transaction_id != t.id) ++ genPair t aid := by
  unfold generate_postings_for_transaction at h
  split at h
  next hlt =>
    split at h
    · exact Except.noConfusion h
    next acct accounts2 nextId2 heq =>
      simp only [Except.ok.injEq, Prod.mk.injEq] at h
      obtain ⟨hn, hs⟩ := h
      subst hs
      exact ⟨hn.symm, rfl, rfl, rfl, rfl, acct.id, by simp [genPair, if_pos hlt]⟩
  next hge =>
    split at h
    · exact Except.noConfusion h
    next acct accounts2 nextId2 heq =>
      simp only [Except.ok.injEq, Prod.mk.injEq] at h
      obtain ⟨hn, hs⟩ := h
      subst hs
      exact ⟨hn.symm, rfl, rfl, rfl, rfl, acct.id, by simp [genPair, if_neg hge]⟩

theorem postingsFor_after_generate (s : State) (t : Transaction) (n : Nat) (s' : State)
    (h : generate_postings_for_transaction s t = .ok (n, s')) :
    ∃ aid, postingsFor s' t.id = genPair t aid := by
  obtain ⟨-, -, -, -, -, aid, hp⟩ := generate_postings_ok s t n s' h
  refine ⟨aid, ?_⟩
  rw [postingsFor, hp, List.filter_append, filter_ne_filter_eq, List.nil_append]
  apply List.filter_eq_self.mpr
  intro p hpmem
  simpa using genPair_tid t aid p hpmem

theorem genPair_debit_sum (t : Transaction) (aid : Nat) :
    ((genPair t aid).map Posting.debit).sum = ratAbs t.amount := by
  unfold genPair; split <;> simp

theorem genPair_credit_sum (t : Transaction) (aid : Nat) :
    ((genPair t aid).map Posting.credit).sum = ratAbs t.amount := by
  unfold genPair; split <;> simp

/-! ## Claims about the posting generator -/

/-- C1: for every transaction for which generate_postings_for_transaction
has been run, the sum of its postings' debit amounts equals the sum of its
postings' credit amounts, and both equal the absolute value of the
transaction's amount. -/
theorem transaction_postings_balance (s : State) (t : Transaction) (n : Nat) (s' : State)
    (h : generate_postings_for_transaction s t = .ok (n, s')) :
    sumDebits s' t.id = sumCredits s' t.id ∧ sumDebits s' t.id = |t.amount| := by
  obtain ⟨aid, hp⟩ := postingsFor_after_generate s t n s' h
  constructor
  · rw [sumDebits, sumCredits, hp, genPair_debit_sum, genPair_credit_sum]
  · rw [sumDebits, hp, genPair_debit_sum, ratAbs_eq_abs]

theorem transaction_postings_balance_witness :
    sumDebits sBasePosted txnGroceries.id = sumCredits sBasePosted txnGroceries.id ∧
      sumDebits sBasePosted txnGroceries.id = |txnGroceries.amount| :=
  transaction_postings_balance sBase txnGroceries 2 sBasePosted (by decide)

/-- C2 counterexample: running the generator on a transaction whose amount
is zero creates two postings with debit = 0 and credit = 0, so "exactly one
of debit and credit is non-zero" fails for them. -/
theorem posting_exactly_one_counterexample :
    generate_postings_for_transaction sZero txnZero = .ok (2, sZeroPosted) ∧
      (postingsFor sZeroPosted txnZero.id).length = 2 ∧
      (postingsFor sZeroPosted txnZero.id).all exactlyOneSide = false :=
  ⟨by decide, by decide, by decide⟩

/-- C2 (amended): every posting created by the generator has debit ≥ 0 and
credit ≥ 0; and whenever the transaction's amount is non-zero, exactly one
of debit and credit is non-zero.  (For a zero-amount transaction both
postings carry debit = credit = 0, which is what forces the amendment.) -/
theorem posting_sides_nonneg_exactly_one (s : State) (t : Transaction) (n : Nat) (s' : State)
    (h : generate_postings_for_transaction s t = .ok (n, s')) :
    (∀ p ∈ postingsFor s' t.id, 0 ≤ p.debit ∧ 0 ≤ p.credit) ∧
      (t.amount ≠ 0 → ∀ p ∈ postingsFor s' t.id,
        (p.debit = 0 ∧ p.credit ≠ 0) ∨ (p.debit ≠ 0 ∧ p.credit = 0)) := by
  obtain ⟨aid, hp⟩ := postingsFor_after_generate s t n s' h
  rw [hp]
  constructor
  · intro p hpm
    unfold genPair at hpm
    split at hpm <;> simp only [List.mem_cons, List.not_mem_nil, or_false] at hpm <;>
      rcases hpm with rfl | rfl <;> exact ⟨by simp [ratAbs_nonneg], by simp [ratAbs_nonneg]⟩
  · intro hne p hpm
    unfold genPair at hpm
    split at hpm <;> simp only [List.mem_cons, List.not_mem_nil, or_false] at hpm <;>
      rcases hpm with rfl | rfl
    · exact Or.inl ⟨rfl, ratAbs_ne_zero t.amount hne⟩
    · exact Or.inr ⟨ratAbs_ne_zero t.amount hne, rfl⟩
    · exact Or.inr ⟨ratAbs_ne_zero t.amount hne, rfl⟩
    · exact Or.inl ⟨rfl, ratAbs_ne_zero t.amount hne⟩

theorem posting_sides_nonneg_exactly_one_witness :
    (∀ p ∈ postingsFor sBasePosted txnGroceries.id, 0 ≤ p.debit ∧ 0 ≤ p.credit) ∧
      (txnGroceries.amount ≠ 0 → ∀ p ∈ postingsFor sBasePosted txnGroceries.id,
        (p.debit = 0 ∧ p.credit ≠ 0) ∨ (p.debit ≠ 0 ∧ p.credit = 0)) :=
  posting_sides_nonneg_exactly_one sBase txnGroceries 2 sBasePosted (by decide)

theorem find?_append_left_none {α : Type} (p : α → Bool) (l₁ l₂ : List α)
    (h : l₁.find? p = none) : (l₁ ++ l₂).find? p = l₂.find? p := by
  rw [List.find?_append, h, Option.none_or]

/-- A successful counterpart resolution is stable: re-resolving against the
account list and id counter it returned yields the very same result (in the
lazy-creation case the account is now found by name instead of re-created). -/
theorem getCounterpart_stable (categories : List Category) (accounts : List Account)
    (nextId : Nat) (catId : Option Nat) (role fallback ty : String)
    (acct : Account) (accounts2 : List Account) (nextId2 : Nat)
    (h : getCounterpart categories accounts nextId catId role fallback ty =
      .ok (acct, accounts2, nextId2)) :
    getCounterpart categories accounts2 nextId2 catId role fallback ty =
      .ok (acct, accounts2, nextId2) := by
  unfold getCounterpart findAccountByName at h ⊢
  cases catId with
  | none =>
    dsimp only at h ⊢
    cases hf : accounts.find? (fun a => a.name == fallback) with
    | none => rw [hf] at h; exact Except.noConfusion h
    | some a =>
      rw [hf] at h
      simp only [Except.ok.injEq, Prod.mk.injEq] at h
      obtain ⟨ha, haccs, hnid⟩ := h
      subst ha; subst haccs; subst hnid
      rw [hf]
  | some cid =>
    dsimp only at h ⊢
    cases hc : categories.find? (fun c => c.id == cid) with
    | none => rw [hc] at h; exact Except.noConfusion h
    | some cat =>
      rw [hc] at h
      dsimp only at h ⊢
      cases hf : accounts.find? (fun a => a.name == role ++ ":" ++ cat.name) with
      | some a =>
        rw [hf] at h
        simp only [Except.ok.injEq, Prod.mk.injEq] at h
        obtain ⟨ha, haccs, hnid⟩ := h
        subst ha; subst haccs; subst hnid
        rw [hf]
      | none =>
        rw [hf] at h
        simp only [Except.ok.injEq, Prod.mk.injEq] at h
        obtain ⟨ha, haccs, hnid⟩ := h
        subst haccs; subst hnid; subst ha
        have hfind : (accounts ++ [Account.mk nextId (role ++ ":" ++ cat.name) ty]).find?
            (fun a => a.name == role ++ ":" ++ cat.name) =
            some (Account.mk nextId (role ++ ":" ++ cat.name) ty) := by
          rw [find?_append_left_none _ _ _ hf]
          simp [List.find?]
        rw [hfind]

theorem filter_ne_append_pair (l : List Posting) (tid : Nat) (p₁ p₂ : Posting)
    (h₁ : p₁.transaction_id = tid) (h₂ : p₂.transaction_id = tid) :
    ((l.filter (fun p => p.transaction_id != tid)) ++ [p₁, p₂]).filter
      (fun p => p.transaction_id != tid) = l.filter (fun p => p.transaction_id != tid) := by
  rw [List.filter_append,
    List.filter_eq_self.mpr (fun p hp => (List.mem_filter.mp hp).2)]
  have h2 : [p₁, p₂].filter (fun p => p.transaction_id != tid) = [] := by
    simp [List.filter_cons, h₁, h₂]
  rw [h2, List.append_nil]

/-- C3: generate_postings_for_transaction is idempotent — a second run on
the state produced by a successful run returns the same count and leaves
the state exactly as it was, because the previous postings are deleted and
re-created identically and the counterpart account is now found rather than
created. -/
theorem generate_postings_idempotent (s : State) (t : Transaction) (n : Nat) (s₁ : State)
    (h : generate_postings_for_transaction s t = .ok (n, s₁)) :
    generate_postings_for_transaction s₁ t = .ok (n, s₁) := by
  unfold generate_postings_for_transaction at h ⊢
  split at h
  next hlt =>
    cases hgc : getCounterpart s.categories s.accounts s.nextAccountId t.category_id
        "Expense" "Expenses" "expense" with
    | error e => rw [hgc] at h; exact Except.noConfusion h
    | ok res =>
      obtain ⟨acct, accounts2, nextId2⟩ := res
      rw [hgc] at h
      simp only [Except.ok.injEq, Prod.mk.injEq] at h
      obtain ⟨hn, hs⟩ := h
      subst hs
      rw [if_pos hlt]
      dsimp only
      rw [getCounterpart_stable _ _ _ _ _ _ _ _ _ _ hgc,
        filter_ne_append_pair s.postings t.id _ _ rfl rfl, ← hn]
  next hge =>
    cases hgc : getCounterpart s.categories s.accounts s.nextAccountId t.category_id
        "Income" "Income" "income" with
    | error e => rw [hgc] at h; exact Except.noConfusion h
    | ok res =>
      obtain ⟨acct, accounts2, nextId2⟩ := res
      rw [hgc] at h
      simp only [Except.ok.injEq, Prod.mk.injEq] at h
      obtain ⟨hn, hs⟩ := h
      subst hs
      rw [if_neg hge]
      dsimp only
      rw [getCounterpart_stable _ _ _ _ _ _ _ _ _ _ hgc,
        filter_ne_append_pair s.postings t.id _ _ rfl rfl, ← hn]

theorem generate_postings_idempotent_witness :
    generate_postings_for_transaction sBasePosted txnGroceries = .ok (2, sBasePosted) :=
  generate_postings_idempotent sBase txnGroceries 2 sBasePosted (by decide)

/-! ## Lemmas and claims about the rules engine -/

theorem firstMatch_append (l₁ l₂ : List Rule) (r : Rule) (d : String) (a : Rat)
    (hfail : ∀ r' ∈ l₁, _rule_matches r' d a = .ok false)
    (hr : _rule_matches r d a = .ok true) :
    firstMatch (l₁ ++ r :: l₂) d a = .ok (some r) := by
  induction l₁ with
  | nil => simp [firstMatch, hr]
  | cons x xs ih =>
    have hx := hfail x (List.mem_cons_self x xs)
    simp only [List.cons_append, firstMatch, hx]
    exact ih (fun r' hm => hfail r' (List.mem_cons_of_mem x hm))

/-- C5: rule evaluation returns the first rule, in the active-sorted
priority order, for which all four match conditions hold: whenever the
sorted active rule list splits as `l₁ ++ r :: l₂` with every rule of `l₁`
failing `_rule_matches` and `r` passing it, the shared evaluation core
returns `r` and its category — independently of the rules in `l₂`, which
are not consulted — and the sorted list is ascending in `priority`, so of
two matching active rules the one with the lower priority value comes first
and determines the category. -/
theorem first_rule_in_priority_order_wins (rules : List Rule) (d : String) (a : Rat)
    (l₁ l₂ : List Rule) (r : Rule)
    (hsplit : activeSorted rules = l₁ ++ r :: l₂)
    (hfail : ∀ r' ∈ l₁, _rule_matches r' d a = .ok false)
    (hr : _rule_matches r d a = .ok true) :
    firstMatch (activeSorted rules) d a = .ok (some r) ∧
      (activeSorted rules).Pairwise (fun r₁ r₂ => r₁.priority ≤ r₂.priority) := by
  constructor
  · rw [hsplit]
    exact firstMatch_append l₁ l₂ r d a hfail hr
  · exact @List.sorted_insertionSort Rule (fun r₁ r₂ => r₁.priority ≤ r₂.priority) _
      ⟨fun a b => Int.le_total a.priority b.priority⟩
      ⟨fun _ _ _ hab hbc => le_trans hab hbc⟩
      (rules.filter (fun r => r.active))

theorem first_rule_in_priority_order_wins_witness :
    firstMatch (activeSorted rulesFixture) "WALMART #123" (-(42 : Rat)) = .ok (some ruleWalmart) ∧
      (activeSorted rulesFixture).Pairwise (fun r₁ r₂ => r₁.priority ≤ r₂.priority) :=
  first_rule_in_priority_order_wins rulesFixture "WALMART #123" (-(42 : Rat))
    [ruleFuel] [ruleMart] ruleWalmart (by decide) (by decide) (by decide)

/-- C10: an active rule whose pattern "[" is not a valid regular expression
makes _rule_matches raise a regex error rather than return false, so both
dry_run_matches and apply_rules fail on a store holding an uncategorized
transaction instead of skipping the malformed rule; and rule matching is
regex search, not plain substring search: the pattern "x.z" matches the
description "wxyz!" although "x.z" is not a substring of it. -/
theorem malformed_rule_pattern_raises :
    _rule_matches ruleBadPattern "SOME SHOP" (-(5 : Rat)) =
        .error "unterminated character set" ∧
      dry_run_matches sBadRule 1000 = .error "unterminated character set" ∧
      apply_rules sBadRule = .error "unterminated character set" ∧
      reSearchCI "x.z" "wxyz!" = .ok true ∧
      ¬ List.IsInfix "x.z".data "wxyz!".data :=
  ⟨by decide, by decide, by decide, by decide, by decide⟩

/-! ## Lemmas and claims about the import adapter -/

theorem importLoop_skip_bad_date (accountId : Nat) (l₁ l₂ : List Row) (bad : Row)
    (nextTid : Nat) (hbad : parse_date bad.dateField = none) :
    importLoop accountId (l₁ ++ bad :: l₂) nextTid =
      importLoop accountId (l₁ ++ l₂) nextTid := by
  induction l₁ generalizing nextTid with
  | nil => simp [importLoop, hbad]
  | cons x xs ih =>
    simp only [List.cons_append, importLoop, List.append_eq]
    cases hx : parse_date x.dateField with
    | none => exact ih nextTid
    | some dt =>
      cases ha : parseAmount x.amountField with
      | none => rfl
      | some amt => rw [ih (nextTid + 1)]

theorem importLoop_all_valid (accountId : Nat) (rows : List Row) (nextTid : Nat)
    (hvalid : ∀ r ∈ rows,
      (parse_date r.dateField).isSome ∧ (parseAmount r.amountField).isSome) :
    ∃ txs nextTid',
      importLoop accountId rows nextTid = .ok (rows.length, txs, nextTid') ∧
      txs.length = rows.length ∧
      ∀ t ∈ txs, ∃ r ∈ rows, some t.date = parse_date r.dateField ∧
        t.description = r.descriptionField ∧ some t.amount = parseAmount r.amountField ∧
        t.source_account_id = accountId ∧ t.category_id = none := by
  induction rows generalizing nextTid with
  | nil => exact ⟨[], nextTid, rfl, rfl, by simp⟩
  | cons x xs ih =>
    obtain ⟨hd, ha⟩ := hvalid x (List.mem_cons_self x xs)
    obtain ⟨d, hdd⟩ := Option.isSome_iff_exists.mp hd
    obtain ⟨amt, haa⟩ := Option.isSome_iff_exists.mp ha
    obtain ⟨txs, nextTid', hloop, hlen, htrace⟩ :=
      ih (nextTid + 1) (fun r hr => hvalid r (List.mem_cons_of_mem x hr))
    refine ⟨⟨nextTid, d, x.descriptionField, amt, accountId, none, none⟩ :: txs,
      nextTid', ?_, ?_, ?_⟩
    · simp [importLoop, hdd, haa, hloop]
    · simp [hlen]
    · intro t ht
      rcases List.mem_cons.mp ht with rfl | ht'
      · exact ⟨x, List.mem_cons_self x xs, by simp [hdd], rfl, by simp [haa], rfl, rfl⟩
      · obtain ⟨r, hr, hprops⟩ := htrace t ht'
        exact ⟨r, List.mem_cons_of_mem x hr, hprops⟩

/-- C6: an input holding one row whose date matches neither accepted format
among otherwise-valid rows imports without error: the count equals the
number of valid rows, exactly that many transactions are added, and every
stored transaction either predates the import or carries the parsed data of
one of the valid rows — none comes from the bad row. -/
theorem import_skips_unparseable_date_row (s : State) (l₁ l₂ : List Row) (bad : Row)
    (name : String) (hbad : parse_date bad.dateField = none)
    (hvalid : ∀ r ∈ l₁ ++ l₂,
      (parse_date r.dateField).isSome ∧ (parseAmount r.amountField).isSome) :
    ∃ s', import_transactions s (l₁ ++ bad :: l₂) name = .ok ((l₁ ++ l₂).length, s') ∧
      s'.transactions.length = s.transactions.length + (l₁ ++ l₂).length ∧
      ∀ t ∈ s'.transactions, t ∈ s.transactions ∨
        ∃ r ∈ l₁ ++ l₂, some t.date = parse_date r.dateField ∧
          t.description = r.descriptionField ∧ some t.amount = parseAmount r.amountField := by
  unfold import_transactions
  cases findAccountByName s.accounts name with
  | some a =>
    dsimp only
    obtain ⟨txs, nextTid', hloop, hlen, htrace⟩ :=
      importLoop_all_valid a.id (l₁ ++ l₂) s.nextTransactionId hvalid
    rw [importLoop_skip_bad_date a.id l₁ l₂ bad s.nextTransactionId hbad, hloop]
    refine ⟨_, rfl, ?_, ?_⟩
    · simp [hlen]
    · intro t ht
      rcases List.mem_append.mp ht with h | h
      · exact Or.inl h
      · obtain ⟨r, hr, h₁, h₂, h₃, -, -⟩ := htrace t h
        exact Or.inr ⟨r, hr, h₁, h₂, h₃⟩
  | none =>
    dsimp only
    obtain ⟨txs, nextTid', hloop, hlen, htrace⟩ :=
      importLoop_all_valid s.nextAccountId (l₁ ++ l₂) s.nextTransactionId hvalid
    rw [importLoop_skip_bad_date s.nextAccountId l₁ l₂ bad s.nextTransactionId hbad, hloop]
    refine ⟨_, rfl, ?_, ?_⟩
    · simp [hlen]
    · intro t ht
      rcases List.mem_append.mp ht with h | h
      · exact Or.inl h
      · obtain ⟨r, hr, h₁, h₂, h₃, -, -⟩ := htrace t h
        exact Or.inr ⟨r, hr, h₁, h₂, h₃⟩

theorem import_skips_unparseable_date_row_witness :
    ∃ s', import_transactions sBase ([rowA] ++ rowBadDate :: [rowC]) "Checking" =
        .ok (([rowA] ++ [rowC]).length, s') ∧
      s'.transactions.length = sBase.transactions.length + ([rowA] ++ [rowC]).length ∧
      ∀ t ∈ s'.transactions, t ∈ sBase.transactions ∨
        ∃ r ∈ [rowA] ++ [rowC], some t.date = parse_date r.dateField ∧
          t.description = r.descriptionField ∧ some t.amount = parseAmount r.amountField :=
  import_skips_unparseable_date_row sBase [rowA] [rowC] rowBadDate "Checking"
    (by decide) (by decide)

/-- C7 counterexample: an input containing a row whose amount field "abc"
does not parse as a decimal, but whose date field also fails to parse, is
skipped by the date check before the amount is ever read — the import
succeeds and returns 0 instead of propagating a parse failure. -/
theorem import_bad_amount_counterexample :
    parseAmount "abc" = none ∧ parse_date "garbage" = none ∧
      import_transactions sBase [Row.mk "garbage" "SHOP B" "abc"] "Checking" =
        .ok (0, sBase) :=
  ⟨by decide, by decide, by decide⟩

theorem importLoop_error_of_bad_amount (accountId : Nat) (rows : List Row) (r : Row)
    (nextTid : Nat) (hmem : r ∈ rows) (hdate : (parse_date r.dateField).isSome)
    (hamt : parseAmount r.amountField = none) :
    ∃ e, importLoop accountId rows nextTid = .error e := by
  induction rows generalizing nextTid with
  | nil => cases hmem
  | cons x xs ih =>
    rcases List.mem_cons.mp hmem with rfl | hmem'
    · obtain ⟨d, hd⟩ := Option.isSome_iff_exists.mp hdate
      exact ⟨"could not convert string to float", by simp [importLoop, hd, hamt]⟩
    · cases hx : parse_date x.dateField with
      | none =>
        obtain ⟨e, he⟩ := ih nextTid hmem'
        exact ⟨e, by simp [importLoop, hx, he]⟩
      | some dt =>
        cases ha : parseAmount x.amountField with
        | none => exact ⟨"could not convert string to float", by simp [importLoop, hx, ha]⟩
        | some amt =>
          obtain ⟨e, he⟩ := ih (nextTid + 1) hmem'
          exact ⟨e, by simp [importLoop, hx, ha, he]⟩

/-- C7 (amended): for every input containing a row whose date parses under
a supported format and whose amount field does not parse as a decimal, the
function import_transactions propagates a parse failure to the caller and
the whole unit aborts — the error result carries no successor state, so no
partial batch is committed.  The amendment adds the date condition: a row
whose date is also unparseable is skipped before its amount is read, so
such an input imports without error (see the counterexample). -/
theorem import_aborts_on_bad_amount (s : State) (rows : List Row) (r : Row)
    (name : String) (hmem : r ∈ rows) (hdate : (parse_date r.dateField).isSome)
    (hamt : parseAmount r.amountField = none) :
    ∃ e, import_transactions s rows name = .error e := by
  unfold import_transactions
  cases findAccountByName s.accounts name with
  | some a =>
    obtain ⟨e, he⟩ :=
      importLoop_error_of_bad_amount a.id rows r s.nextTransactionId hmem hdate hamt
    exact ⟨e, by simp [he]⟩
  | none =>
    obtain ⟨e, he⟩ :=
      importLoop_error_of_bad_amount s.nextAccountId rows r s.nextTransactionId hmem hdate hamt
    exact ⟨e, by simp [he]⟩

theorem import_aborts_on_bad_amount_witness :
    ∃ e, import_transactions sBase [rowBadAmount] "Checking" = .error e :=
  import_aborts_on_bad_amount sBase [rowBadAmount] rowBadAmount "Checking"
    (by decide) (by decide) (by decide)

/-! ## Lemmas and the claim about the batch posting generator -/

theorem generate_postings_other_tid (s : State) (t : Transaction) (n : Nat) (s' : State)
    (h : generate_postings_for_transaction s t = .ok (n, s')) (tid : Nat)
    (hne : tid ≠ t.id) : postingsFor s' tid = postingsFor s tid := by
  obtain ⟨-, -, -, -, -, aid, hp⟩ := generate_postings_ok s t n s' h
  rw [postingsFor, hp, List.filter_append, postingsFor, List.filter_filter]
  have h1 : (genPair t aid).filter (fun p => p.transaction_id == tid) = [] := by
    apply List.filter_eq_nil_iff.mpr
    intro p hpm
    rw [genPair_tid t aid p hpm]
    simp [Ne.symm hne]
  rw [h1, List.append_nil]
  apply List.filter_congr
  intro p _
  by_cases hp2 : p.transaction_id = tid
  · subst hp2
    simp [bne, hne]
  · simp [hp2]

theorem generate_postings_count_two (s : State) (t : Transaction) (n : Nat) (s' : State)
    (h : generate_postings_for_transaction s t = .ok (n, s')) :
    (postingsFor s' t.id).length = 2 := by
  obtain ⟨aid, hp⟩ := postingsFor_after_generate s t n s' h
  rw [hp]
  unfold genPair
  split <;> rfl

theorem genAllLoop_ok (txns : List Transaction) (count : Nat) (s : State)
    (n : Nat) (s' : State) (h : genAllLoop txns (count, s) = .ok (n, s')) :
    n = count + txns.length ∧ s'.transactions = s.transactions ∧
      (∀ tid, (∀ u ∈ txns, u.id ≠ tid) → postingsFor s' tid = postingsFor s tid) ∧
      (∀ t ∈ txns, (postingsFor s' t.id).length = 2) := by
  induction txns generalizing count s with
  | nil =>
    simp only [genAllLoop, Except.ok.injEq, Prod.mk.injEq] at h
    obtain ⟨hn, hs⟩ := h
    subst hs
    refine ⟨?_, rfl, fun _ _ => rfl, by simp⟩
    simp only [List.length_nil]
    omega
  | cons t rest ih =>
    simp only [genAllLoop] at h
    cases hg : generate_postings_for_transaction s t with
    | error e => rw [hg] at h; exact Except.noConfusion h
    | ok res =>
      obtain ⟨m, s₁⟩ := res
      rw [hg] at h
      obtain ⟨hn, htx, hframe, htwo⟩ := ih (count + 1) s₁ h
      obtain ⟨-, htx₁, -, -, -, -, -⟩ := generate_postings_ok s t m s₁ hg
      refine ⟨by simp only [List.length_cons]; omega, htx.trans htx₁, ?_, ?_⟩
      · intro tid hids
        rw [hframe tid (fun u hu => hids u (List.mem_cons_of_mem t hu)),
          generate_postings_other_tid s t m s₁ hg tid
            (Ne.symm (hids t (List.mem_cons_self t rest)))]
      · intro t' ht'
        rcases List.mem_cons.mp ht' with rfl | ht''
        · by_cases hdup : ∃ u ∈ rest, u.id = t'.id
          · obtain ⟨u, hu, huid⟩ := hdup
            rw [← huid]
            exact htwo u hu
          · push_neg at hdup
            rw [hframe t'.id (fun u hu => hdup u hu)]
            exact generate_postings_count_two s t' m s₁ hg
        · exact htwo t' ht''

/-- C8: generate_all_postings processes exactly the transactions with zero
existing postings, up to the caller-supplied limit, generating two postings
for each; the transaction table (hence every transaction's fields) is left
unchanged, and every transaction that already has postings keeps its
postings exactly as they were. -/
theorem generate_all_postings_spec (s : State) (limit : Nat) (n : Nat) (s' : State)
    (h : generate_all_postings s limit = .ok (n, s')) :
    n = ((unposted s).take limit).length ∧
      s'.transactions = s.transactions ∧
      (∀ t ∈ (unposted s).take limit, (postingsFor s' t.id).length = 2) ∧
      ∀ t ∈ s.transactions, postingsFor s t.id ≠ [] →
        postingsFor s' t.id = postingsFor s t.id := by
  obtain ⟨hn, htx, hframe, htwo⟩ :=
    genAllLoop_ok ((unposted s).take limit) 0 s n s' h
  refine ⟨by simpa using hn, htx, htwo, ?_⟩
  intro t ht hpost
  apply hframe
  intro u hu hid
  have hunp : u ∈ unposted s := List.mem_of_mem_take hu
  have hnone := (List.mem_filter.mp hunp).2
  rw [Bool.not_eq_eq_eq_not, Bool.not_true] at hnone
  have : ∃ p ∈ s.postings, (p.transaction_id == t.id) = true := by
    by_contra hcon
    push_neg at hcon
    exact hpost (List.filter_eq_nil_iff.mpr (fun p hp => by simp [hcon p hp]))
  obtain ⟨p, hp, hpt⟩ := this
  have : s.postings.any (fun p => p.transaction_id == u.id) = true :=
    List.any_eq_true.mpr ⟨p, hp, by rw [hid]; exact hpt⟩
  rw [this] at hnone
  exact Bool.noConfusion hnone

theorem generate_all_postings_spec_witness :
    1 = ((unposted sBase).take 5).length ∧
      sBasePosted.transactions = sBase.transactions ∧
      (∀ t ∈ (unposted sBase).take 5, (postingsFor sBasePosted t.id).length = 2) ∧
      ∀ t ∈ sBase.transactions, postingsFor sBase t.id ≠ [] →
        postingsFor sBasePosted t.id = postingsFor sBase t.id :=
  generate_all_postings_spec sBase 5 1 sBasePosted (by decide)

/-! ## Lemmas about the two rules-engine entry points -/

theorem setCategory_map_id (txs : List Transaction) (tid cid : Nat) :
    (setCategory txs tid cid).map Transaction.id = txs.map Transaction.id := by
  unfold setCategory
  rw [List.map_map]
  apply List.map_congr_left
  intro u _
  cases h : u.id == tid <;> simp [Function.comp, h]

theorem setCategory_frame (txs : List Transaction) (tid cid xid : Nat)
    (hne : xid ≠ tid) :
    (setCategory txs tid cid).find? (fun u => u.id == xid) =
      txs.find? (fun u => u.id == xid) := by
  unfold setCategory
  rw [List.find?_map]
  have hp : ((fun u : Transaction => u.id == xid) ∘
      (fun u => if u.id == tid then { u with category_id := some cid } else u)) =
      (fun u : Transaction => u.id == xid) := by
    funext u
    cases h : u.id == tid <;> simp [Function.comp, h]
  rw [hp]
  cases hf : txs.find? (fun u => u.id == xid) with
  | none => rfl
  | some u₀ =>
    have hu : u₀.id = xid := by simpa using List.find?_some hf
    simp [hu, hne]

theorem setCategory_found (txs : List Transaction) (tid cid : Nat) :
    (setCategory txs tid cid).find? (fun u => u.id == tid) =
      (txs.find? (fun u => u.id == tid)).map
        (fun u => { u with category_id := some cid }) := by
  unfold setCategory
  rw [List.find?_map]
  have hp : ((fun u : Transaction => u.id == tid) ∘
      (fun u => if u.id == tid then { u with category_id := some cid } else u)) =
      (fun u : Transaction => u.id == tid) := by
    funext u
    cases h : u.id == tid <;> simp [Function.comp, h]
  rw [hp]
  cases hf : txs.find? (fun u => u.id == tid) with
  | none => rfl
  | some u₀ =>
    have hu : u₀.id = tid := by simpa using List.find?_some hf
    simp [hu]

theorem find?_id_of_mem (txs : List Transaction) (t : Transaction)
    (hids : (txs.map Transaction.id).Nodup) (ht : t ∈ txs) :
    txs.find? (fun u => u.id == t.id) = some t := by
  induction txs with
  | nil => cases ht
  | cons y ys ih =>
    simp only [List.map_cons, List.nodup_cons] at hids
    obtain ⟨hny, htail⟩ := hids
    rw [List.find?_cons]
    cases hy : y.id == t.id with
    | true =>
      have hyid : y.id = t.id := by simpa using hy
      rcases List.mem_cons.mp ht with rfl | htl
      · rfl
      · exact absurd (hyid ▸ List.mem_map_of_mem Transaction.id htl) hny
    | false =>
      have hyid : y.id ≠ t.id := by simpa using hy
      rcases List.mem_cons.mp ht with rfl | htl
      · exact absurd rfl hyid
      · exact ih htail htl

theorem mem_applySelect (s : State) (t : Transaction) :
    t ∈ applySelect s ↔ t ∈ s.transactions ∧ t.category_id = none := by
  unfold applySelect
  rw [(List.perm_insertionSort _ _).mem_iff]
  unfold uncategorized
  rw [List.mem_filter]
  simp

theorem applySelect_ids_nodup (s : State)
    (hids : (s.transactions.map Transaction.id).Nodup) :
    ((applySelect s).map Transaction.id).Nodup := by
  have h1 : ((uncategorized s).map Transaction.id).Nodup :=
    List.Nodup.sublist ((List.filter_sublist _).map Transaction.id) hids
  exact (((List.perm_insertionSort _ _).map Transaction.id).symm).nodup h1

theorem mem_dryRunSelect (s : State) (limit : Nat) (t : Transaction)
    (ht : t ∈ dryRunSelect s limit) : t ∈ s.transactions ∧ t.category_id = none := by
  unfold dryRunSelect at ht
  have h1 := (List.take_sublist _ _).subset ht
  rw [(List.perm_insertionSort _ _).mem_iff] at h1
  unfold uncategorized at h1
  rw [List.mem_filter] at h1
  simpa using h1

theorem dryRunSelect_ids_nodup (s : State) (limit : Nat)
    (hids : (s.transactions.map Transaction.id).Nodup) :
    ((dryRunSelect s limit).map Transaction.id).Nodup := by
  have h1 : ((uncategorized s).map Transaction.id).Nodup :=
    List.Nodup.sublist ((List.filter_sublist _).map Transaction.id) hids
  have h2 := (((List.perm_insertionSort
    (fun t u : Transaction => Date.le u.date t.date = true) _).map
      Transaction.id).symm).nodup h1
  exact List.Nodup.sublist ((List.take_sublist limit _).map Transaction.id) h2

theorem applyLoop_noop (rules : List Rule) (snap : List Transaction) (u : Nat)
    (txs : List Transaction)
    (hall : ∀ t ∈ snap, firstMatch rules t.description t.amount = .ok none) :
    applyLoop rules snap u txs = .ok (u, txs) := by
  induction snap with
  | nil => rfl
  | cons x rest ih =>
    simp only [applyLoop, hall x (List.mem_cons_self x rest)]
    exact ih (fun t ht => hall t (List.mem_cons_of_mem x ht))

theorem applyLoop_find_frame (rules : List Rule) (snap : List Transaction)
    (u : Nat) (txs : List Transaction) (n : Nat) (txs' : List Transaction)
    (h : applyLoop rules snap u txs = .ok (n, txs')) (tid : Nat)
    (hno : ∀ x ∈ snap, x.id ≠ tid) :
    txs'.find? (fun v => v.id == tid) = txs.find? (fun v => v.id == tid) := by
  induction snap generalizing u txs with
  | nil =>
    simp only [applyLoop, Except.ok.injEq, Prod.mk.injEq] at h
    rw [h.2]
  | cons x rest ih =>
    simp only [applyLoop] at h
    cases hf : firstMatch rules x.description x.amount with
    | error e => rw [hf] at h; exact Except.noConfusion h
    | ok o =>
      rw [hf] at h
      cases o with
      | none => exact ih _ _ h (fun y hy => hno y (List.mem_cons_of_mem x hy))
      | some r =>
        rw [ih _ _ h (fun y hy => hno y (List.mem_cons_of_mem x hy))]
        exact setCategory_frame txs x.id r.category_id tid
          (Ne.symm (hno x (List.mem_cons_self x rest)))

theorem applyLoop_uncat_after (rules : List Rule) (snap : List Transaction)
    (u : Nat) (txs : List Transaction) (n : Nat) (txs' : List Transaction)
    (h : applyLoop rules snap u txs = .ok (n, txs')) :
    ∀ v ∈ txs', v.category_id = none →
      v ∈ txs ∧ ∀ t ∈ snap, t.id = v.id →
        firstMatch rules t.description t.amount = .ok none := by
  induction snap generalizing u txs with
  | nil =>
    simp only [applyLoop, Except.ok.injEq, Prod.mk.injEq] at h
    intro v hv _
    rw [← h.2] at hv
    exact ⟨hv, by simp⟩
  | cons x rest ih =>
    simp only [applyLoop] at h
    cases hf : firstMatch rules x.description x.amount with
    | error e => rw [hf] at h; exact Except.noConfusion h
    | ok o =>
      rw [hf] at h
      cases o with
      | none =>
        intro v hv hcat
        obtain ⟨hvtxs, hrest⟩ := ih _ _ h v hv hcat
        refine ⟨hvtxs, ?_⟩
        intro t ht htid
        rcases List.mem_cons.mp ht with rfl | ht'
        · exact hf
        · exact hrest t ht' htid
      | some r =>
        intro v hv hcat
        obtain ⟨hvtxs2, hrest⟩ := ih _ _ h v hv hcat
        obtain ⟨u₀, hu₀, himg⟩ := List.mem_map.mp hvtxs2
        cases hid : u₀.id == x.id with
        | true =>
          exfalso
          simp only [hid, if_true] at himg
          rw [← himg] at hcat
          exact Option.noConfusion hcat
        | false =>
          simp only [hid, Bool.false_eq_true, if_false] at himg
          subst himg
          refine ⟨hu₀, ?_⟩
          intro t ht htid
          rcases List.mem_cons.mp ht with rfl | ht'
          · exfalso
            have : u₀.id = t.id := htid.symm
            rw [this] at hid
            simp at hid
          · exact hrest t ht' htid

theorem applyLoop_preserves_categorized (rules : List Rule) (snap : List Transaction)
    (u : Nat) (txs : List Transaction) (n : Nat) (txs' : List Transaction)
    (h : applyLoop rules snap u txs = .ok (n, txs'))
    (hsnapids : (snap.map Transaction.id).Nodup)
    (hsnapuncat : ∀ t ∈ snap, t.category_id = none)
    (hsnapmem : ∀ t ∈ snap, t ∈ txs)
    (hids : (txs.map Transaction.id).Nodup) :
    ∀ v ∈ txs, v.category_id ≠ none → v ∈ txs' := by
  induction snap generalizing u txs with
  | nil =>
    simp only [applyLoop, Except.ok.injEq, Prod.mk.injEq] at h
    intro v hv _
    rw [← h.2]
    exact hv
  | cons x rest ih =>
    simp only [List.map_cons, List.nodup_cons] at hsnapids
    obtain ⟨hxid, hrestids⟩ := hsnapids
    simp only [applyLoop] at h
    cases hf : firstMatch rules x.description x.amount with
    | error e => rw [hf] at h; exact Except.noConfusion h
    | ok o =>
      rw [hf] at h
      cases o with
      | none =>
        exact ih _ _ h hrestids
          (fun t ht => hsnapuncat t (List.mem_cons_of_mem x ht))
          (fun t ht => hsnapmem t (List.mem_cons_of_mem x ht)) hids
      | some r =>
        intro v hv hvcat
        have hx : x ∈ txs := hsnapmem x (List.mem_cons_self x rest)
        have hvx : v.id ≠ x.id := by
          intro heq
          have : v = x := List.inj_on_of_nodup_map hids hv hx heq
          rw [this] at hvcat
          exact hvcat (hsnapuncat x (List.mem_cons_self x rest))
        have hvmem2 : v ∈ setCategory txs x.id r.category_id := by
          have himg : (if v.id == x.id then
              { v with category_id := some r.category_id } else v) = v := by
            simp [hvx]
          rw [← himg]
          exact List.mem_map_of_mem _ hv
        refine ih _ _ h hrestids
          (fun t ht => hsnapuncat t (List.mem_cons_of_mem x ht))
          (fun t ht => ?_)
          (by rw [setCategory_map_id]; exact hids) v hvmem2 hvcat
        have htmem : t ∈ txs := hsnapmem t (List.mem_cons_of_mem x ht)
        have htx : t.id ≠ x.id := by
          intro heq
          exact hxid (heq ▸ List.mem_map_of_mem Transaction.id ht)
        have himg : (if t.id == x.id then
            { t with category_id := some r.category_id } else t) = t := by
          simp [htx]
        rw [← himg]
        exact List.mem_map_of_mem _ htmem

theorem applyLoop_find_category (rules : List Rule) (snap : List Transaction)
    (u : Nat) (txs : List Transaction) (n : Nat) (txs' : List Transaction)
    (h : applyLoop rules snap u txs = .ok (n, txs'))
    (hids : (txs.map Transaction.id).Nodup)
    (hsnapids : (snap.map Transaction.id).Nodup)
    (hsnapmem : ∀ x ∈ snap, x ∈ txs)
    (t : Transaction) (ht : t ∈ snap) (hcat : t.category_id = none) :
    (txs'.find? (fun v => v.id == t.id)).bind Transaction.category_id =
      (match firstMatch rules t.description t.amount with
       | .ok (some r) => some r.category_id
       | _ => none) := by
  induction snap generalizing u txs with
  | nil => cases ht
  | cons x rest ih =>
    simp only [List.map_cons, List.nodup_cons] at hsnapids
    obtain ⟨hxid, hrestids⟩ := hsnapids
    simp only [applyLoop] at h
    cases hf : firstMatch rules x.description x.amount with
    | error e => rw [hf] at h; exact Except.noConfusion h
    | ok o =>
      rw [hf] at h
      rcases List.mem_cons.mp ht with rfl | ht'
      · have hno : ∀ y ∈ rest, y.id ≠ t.id := by
          intro y hy heq
          exact hxid (heq ▸ List.mem_map_of_mem Transaction.id hy)
        cases o with
        | none =>
          rw [applyLoop_find_frame rules rest _ _ _ _ h t.id hno,
            find?_id_of_mem txs t hids (hsnapmem t (List.mem_cons_self t rest)), hf]
          simp [hcat]
        | some r =>
          rw [applyLoop_find_frame rules rest _ _ _ _ h t.id hno,
            setCategory_found txs t.id r.category_id,
            find?_id_of_mem txs t hids (hsnapmem t (List.mem_cons_self t rest)), hf]
          rfl
      · have htx : t.id ≠ x.id := by
          intro heq
          exact hxid (heq ▸ List.mem_map_of_mem Transaction.id ht')
        cases o with
        | none =>
          exact ih _ _ h hids hrestids
            (fun y hy => hsnapmem y (List.mem_cons_of_mem x hy)) ht'
        | some r =>
          refine ih _ _ h (by rw [setCategory_map_id]; exact hids) hrestids
            (fun y hy => ?_) ht'
          have hymem : y ∈ txs := hsnapmem y (List.mem_cons_of_mem x hy)
          have hyx : y.id ≠ x.id := by
            intro heq
            exact hxid (heq ▸ List.mem_map_of_mem Transaction.id hy)
          have himg : (if y.id == x.id then
              { y with category_id := some r.category_id } else y) = y := by
            simp [hyx]
          rw [← himg]
          exact List.mem_map_of_mem _ hymem

theorem dryRunLoop_ids (rules : List Rule) (snap : List Transaction)
    (ms : List RuleMatch) (h : dryRunLoop rules snap = .ok ms) :
    ∀ m ∈ ms, ∃ t ∈ snap, m.transaction_id = t.id := by
  induction snap generalizing ms with
  | nil =>
    simp only [dryRunLoop, Except.ok.injEq] at h
    subst h
    intro m hm
    cases hm
  | cons x rest ih =>
    simp only [dryRunLoop] at h
    cases hf : firstMatch rules x.description x.amount with
    | error e => rw [hf] at h; exact Except.noConfusion h
    | ok o =>
      rw [hf] at h
      cases o with
      | none =>
        intro m hm
        obtain ⟨t, ht, he⟩ := ih ms h m hm
        exact ⟨t, List.mem_cons_of_mem x ht, he⟩
      | some r =>
        cases hrec : dryRunLoop rules rest with
        | error e => rw [hrec] at h; exact Except.noConfusion h
        | ok ms₀ =>
          rw [hrec] at h
          simp only [Except.ok.injEq] at h
          subst h
          intro m hm
          rcases List.mem_cons.mp hm with rfl | hm'
          · exact ⟨x, List.mem_cons_self x rest, rfl⟩
          · obtain ⟨t, ht, he⟩ := ih ms₀ hrec m hm'
            exact ⟨t, List.mem_cons_of_mem x ht, he⟩

theorem dryRunLoop_find (rules : List Rule) (snap : List Transaction)
    (ms : List RuleMatch) (h : dryRunLoop rules snap = .ok ms)
    (hsnapids : (snap.map Transaction.id).Nodup) :
    ∀ t ∈ snap,
      ms.find? (fun m => m.transaction_id == t.id) =
        (match firstMatch rules t.description t.amount with
         | .ok (some r) => some ⟨t.id, r.id, r.category_id⟩
         | _ => none) := by
  induction snap generalizing ms with
  | nil => intro t ht; cases ht
  | cons x rest ih =>
    simp only [List.map_cons, List.nodup_cons] at hsnapids
    obtain ⟨hxid, hrestids⟩ := hsnapids
    simp only [dryRunLoop] at h
    cases hf : firstMatch rules x.description x.amount with
    | error e => rw [hf] at h; exact Except.noConfusion h
    | ok o =>
      rw [hf] at h
      cases o with
      | none =>
        intro t ht
        rcases List.mem_cons.mp ht with rfl | ht'
        · rw [hf]
          apply List.find?_eq_none.mpr
          intro m hm hbeq
          obtain ⟨t', ht', he⟩ := dryRunLoop_ids rules rest ms h m hm
          have hmt : m.transaction_id = t.id := by simpa using hbeq
          exact hxid ((hmt ▸ he).symm ▸ List.mem_map_of_mem Transaction.id ht')
        · exact ih ms h hrestids t ht'
      | some r =>
        cases hrec : dryRunLoop rules rest with
        | error e => rw [hrec] at h; exact Except.noConfusion h
        | ok ms₀ =>
          rw [hrec] at h
          simp only [Except.ok.injEq] at h
          subst h
          intro t ht
          rcases List.mem_cons.mp ht with rfl | ht'
          · rw [hf, List.find?_cons]
            simp
          · have htx : x.id ≠ t.id := by
              intro heq
              exact hxid (heq ▸ List.mem_map_of_mem Transaction.id ht')
            rw [List.find?_cons]
            simp only [show ((⟨x.id, r.id, r.category_id⟩ : RuleMatch).transaction_id
              == t.id) = false from by simpa using htx]
            exact ih ms₀ hrec hrestids t ht'

/-- C9: apply_rules is idempotent: running it a second time on the store a
successful run produced categorizes 0 transactions and returns that store
unchanged, because only transactions with no assigned category are ever
selected or mutated; moreover every transaction that was already
categorized before the run is still present, untouched, afterwards — its
category is never overwritten. -/
theorem apply_rules_idempotent (s : State) (n : Nat) (s' : State)
    (hids : (s.transactions.map Transaction.id).Nodup)
    (h : apply_rules s = .ok (n, s')) :
    apply_rules s' = .ok (0, s') ∧
      ∀ v ∈ s.transactions, v.category_id ≠ none → v ∈ s'.transactions := by
  unfold apply_rules at h
  cases hl : applyLoop (activeSorted s.rules) (applySelect s) 0 s.transactions with
  | error e => rw [hl] at h; exact Except.noConfusion h
  | ok res =>
    obtain ⟨m, txs'⟩ := res
    rw [hl] at h
    simp only [Except.ok.injEq, Prod.mk.injEq] at h
    obtain ⟨hm, hs⟩ := h
    subst hs
    constructor
    · unfold apply_rules
      dsimp only
      have hall : ∀ t ∈ applySelect { s with transactions := txs' },
          firstMatch (activeSorted s.rules) t.description t.amount = .ok none := by
        intro t ht
        obtain ⟨htx', hcat⟩ := (mem_applySelect _ t).mp ht
        obtain ⟨htx, hforall⟩ := applyLoop_uncat_after _ _ _ _ _ _ hl t htx' hcat
        exact hforall t ((mem_applySelect s t).mpr ⟨htx, hcat⟩) rfl
      rw [applyLoop_noop _ _ _ _ hall]
    · intro v hv hvcat
      exact applyLoop_preserves_categorized _ _ _ _ _ _ hl
        (applySelect_ids_nodup s hids)
        (fun t ht => ((mem_applySelect s t).mp ht).2)
        (fun t ht => ((mem_applySelect s t).mp ht).1)
        hids v hv hvcat

theorem apply_rules_idempotent_witness :
    apply_rules sRulesApplied = .ok (0, sRulesApplied) ∧
      ∀ v ∈ sRules.transactions, v.category_id ≠ none → v ∈ sRulesApplied.transactions :=
  apply_rules_idempotent sRules 1 sRulesApplied (by decide) (by decide)

/-- C4: for a fixed store, the category dry_run_matches predicts for an
uncategorized transaction it considers equals the category apply_rules
persists for that transaction: the dry-run entry found by the transaction's
id carries category c exactly when the stored transaction ends up with
category c, and the absence of an entry means the stored transaction stays
uncategorized. -/
theorem dry_run_apply_agree (s : State) (limit : Nat) (ms : List RuleMatch)
    (n : Nat) (s' : State) (t : Transaction)
    (hids : (s.transactions.map Transaction.id).Nodup)
    (ht : t ∈ dryRunSelect s limit)
    (hdr : dry_run_matches s limit = .ok ms)
    (hap : apply_rules s = .ok (n, s')) :
    (ms.find? (fun m => m.transaction_id == t.id)).map RuleMatch.category_id =
      (s'.transactions.find? (fun u => u.id == t.id)).bind Transaction.category_id := by
  obtain ⟨htmem, htcat⟩ := mem_dryRunSelect s limit t ht
  unfold dry_run_matches at hdr
  unfold apply_rules at hap
  cases hl : applyLoop (activeSorted s.rules) (applySelect s) 0 s.transactions with
  | error e => rw [hl] at hap; exact Except.noConfusion hap
  | ok res =>
    obtain ⟨m, txs'⟩ := res
    rw [hl] at hap
    simp only [Except.ok.injEq, Prod.mk.injEq] at hap
    obtain ⟨hm, hs⟩ := hap
    subst hs
    have hleft := dryRunLoop_find (activeSorted s.rules) (dryRunSelect s limit) ms hdr
      (dryRunSelect_ids_nodup s limit hids) t ht
    have hright := applyLoop_find_category (activeSorted s.rules) (applySelect s)
      0 s.transactions m txs' hl hids (applySelect_ids_nodup s hids)
      (fun x hx => ((mem_applySelect s x).mp hx).1) t
      ((mem_applySelect s t).mpr ⟨htmem, htcat⟩) htcat
    rw [hleft]
    dsimp only
    rw [hright]
    cases hfm : firstMatch (activeSorted s.rules) t.description t.amount with
    | error e => simp
    | ok o =>
      cases o with
      | none => simp
      | some r => simp

theorem dry_run_apply_agree_witness :
    (([⟨1, 1, 1⟩] : List RuleMatch).find?
        (fun m => m.transaction_id == txnGroceries.id)).map RuleMatch.category_id =
      (sRulesApplied.transactions.find?
        (fun u => u.id == txnGroceries.id)).bind Transaction.category_id :=
  dry_run_apply_agree sRules 1000 [⟨1, 1, 1⟩] 1 sRulesApplied txnGroceries
    (by decide) (by decide) (by decide) (by decide)

end FinanceApp
